import Mathlib

/-!
# Verification of the saaspocalypse backend core

Shallow embedding of the zone classifier, the news scorer/deduplicator
(`news_aggregator.py`), and the cohort batch-evaluation engine
(`cohort_service.py`, `evaluator_service.py`), with theorems settling the
frozen claims about them.

Conventions of the embedding:
* Python ints are `Int` (scores may be negative before clamping).
* Python `None`-able values are `Option _`.
* Timestamps are integer hours since an arbitrary epoch; the 24-hour reuse
  window becomes `created_at ≥ now - 24`.
* Third-party library calls that compute over floats (`rapidfuzz.fuzz.ratio`,
  `math.log2`) are parameters of the embedding: the claims settled here do
  not depend on their exact values, only on the structure around them.
* The relational store is a `List` of records; SQL queries become list
  filters mirroring their WHERE/ORDER BY/LIMIT clauses.
* `String.toLower`/`String.trim` do not reduce in the kernel, so the
  embedding uses `lowerStr`/`stripStr` defined over the character data;
  they implement the same ASCII lowering and whitespace stripping as
  Python's `str.lower`/`str.strip` on the inputs that occur here.
-/

namespace Saas

/-- Lowercase a string character by character (Python `str.lower`). -/
def lowerStr (s : String) : String := ⟨s.data.map Char.toLower⟩

/-- Strip leading and trailing whitespace (Python `str.strip`). -/
def stripStr (s : String) : String :=
  ⟨((s.data.dropWhile Char.isWhitespace).reverse.dropWhile Char.isWhitespace).reverse⟩

/-- Substring test on character lists (Python `needle in hay`). -/
def hasSub (needle : List Char) : List Char → Bool
  | [] => needle.isPrefixOf []
  | c :: rest => needle.isPrefixOf (c :: rest) || hasSub needle rest

/-- Substring test on strings (Python `kw in text`). -/
def strContains (hay needle : String) : Bool := hasSub needle.data hay.data

/-! ## Zone classifier (`cohort_service.derive_zone`,
`EvaluatorService._derive_zone`) -/

/-- `EvaluatorService._derive_zone` (evaluator_service.py lines 88–105):
the threshold rule on two integer scores. -/
def deriveZoneI (x y : Int) : String :=
  if x ≥ 50 ∧ y ≥ 50 then "fortress"
  else if x < 50 ∧ y ≥ 50 then "compression"
  else if x ≥ 50 ∧ y < 50 then "adaptation"
  else "dead"

/-- `derive_zone` (cohort_service.py lines 18–36): substitutes 50 for a
missing (`None`) score, then applies the threshold rule. -/
def derive_zone (x_score y_score : Option Int) : String :=
  let x := x_score.getD 50
  let y := y_score.getD 50
  if x ≥ 50 ∧ y ≥ 50 then "fortress"
  else if x < 50 ∧ y ≥ 50 then "compression"
  else if x ≥ 50 ∧ y < 50 then "adaptation"
  else "dead"

/-! ## News scorer (`news_aggregator.py`) -/

/-- Engagement counters attached to a news item (the `engagement` dict).
Absent keys default to 0, as with Python's `dict.get(key, 0)`. -/
structure Engagement where
  points : Int := 0
  comments : Int := 0
  score : Int := 0
  likes : Int := 0
  retweets : Int := 0
deriving DecidableEq, Repr

/-- A news item as consumed by `_score_item`. `ageSeconds` is the outcome of
parsing `published_at` and subtracting it from the current time:
`none` models an unparsable date string (the `except` branch of
`_compute_recency`), `some a` models an age of `a` seconds. -/
structure NewsItem where
  title : String := ""
  summary : String := ""
  source : String := ""
  feed_name : String := ""
  engagement : Engagement := {}
  ageSeconds : Option Int := none
deriving DecidableEq, Repr

/-- `RELEVANCE_KEYWORDS` (news_aggregator.py lines 96–113): keyword tiers
with their weights. -/
def RELEVANCE_KEYWORDS : List (List String × Nat) :=
  [ (["saas disruption", "saas dead", "replacing saas", "saas collapse",
      "ai replacing", "ai agent", "ai-native", "ai native"], 8),
    (["saas", "software-as-a-service", "b2b software", "enterprise software",
      "seat-based", "per-seat", "subscription software"], 5),
    (["artificial intelligence", "machine learning", "large language model",
      "llm", "gpt", "claude", "gemini", "copilot", "foundation model",
      "frontier model", "ai startup"], 4),
    (["revenue compression", "margin pressure", "churn", "displacement",
      "market share", "disruption", "competitive moat", "pricing power"], 3),
    (["funding", "acquisition", "ipo", "earnings", "valuation",
      "open source", "developer tools", "cloud"], 1) ]

/-- `_compute_relevance` (lines 116–125): tiered keyword matching over
`title + " " + summary`, lowercased; within a tier only the first match
counts (the `break`), the sum is capped at 40. -/
def compute_relevance (title summary : String) : Nat :=
  let text := lowerStr (title ++ " " ++ summary)
  let score := RELEVANCE_KEYWORDS.foldl
    (fun acc tier => if tier.1.any (fun kw => strContains text kw) then acc + tier.2 else acc) 0
  min score 40

/-- `_compute_popularity` (lines 128–164). The parameter `log3` stands for
the float computation `int(math.log2(max(v, 1)) * 3)`; the hackernews branch
`int((points + comments * 0.5) / 10)` is the exact integer computation
`(2 * points + comments).tdiv 20` (`int()` truncates toward zero, as does
`Int.tdiv`). -/
def compute_popularity (log3 : Int → Int) (item : NewsItem) : Int :=
  if item.source == "hackernews" then
    min (Int.tdiv (2 * item.engagement.points + item.engagement.comments) 20) 30
  else if item.source == "reddit" then
    if item.engagement.score > 0 then min (log3 item.engagement.score) 30 else 0
  else if item.source == "twitter" then
    if item.engagement.likes + 3 * item.engagement.retweets > 0 then
      min (log3 (item.engagement.likes + 3 * item.engagement.retweets)) 30
    else 0
  else if item.source == "techcrunch" || item.source == "rss" then 5
  else if item.source == "podcast" then 8
  else 0

/-- `SOURCE_AUTHORITY` (lines 27–73): editorial trust weights per feed. -/
def SOURCE_AUTHORITY : List (String × Nat) :=
  [ ("Wall Street Journal", 20), ("Reuters", 19), ("Financial Times", 19),
    ("Bloomberg", 18), ("CNBC", 16), ("Institutional", 17),
    ("Stratechery", 20), ("Techmeme", 18), ("Don't Short SaaS", 18),
    ("Pragmatic Engineer", 17),
    ("TechCrunch AI", 16), ("Ars Technica", 14), ("The Verge AI", 14),
    ("Hacker News", 12), ("r/SaaS", 10), ("r/LocalLLaMA", 10),
    ("r/artificial", 9), ("r/singularity", 9), ("r/ChatGPT", 9),
    ("r/MachineLearning", 12), ("r/OpenAI", 10), ("r/ClaudeAI", 10),
    ("r/startups", 9), ("r/technology", 8),
    ("Tomasz Tunguz", 20), ("The SaaS Playbook", 18), ("AI News Digest", 16),
    ("Lenny's Newsletter", 17), ("Not Boring", 16), ("SaaStr", 17),
    ("The Generalist", 15), ("One Useful Thing", 16), ("Simon Willison", 16),
    ("Newcomer", 18),
    ("Dwarkesh Patel", 19), ("TBPN", 18), ("Prof G Markets", 17),
    ("Invest Like the Best", 18), ("Capital Allocators", 17) ]

/-- `DEFAULT_AUTHORITY` (line 74). -/
def DEFAULT_AUTHORITY : Nat := 8

/-- `SOURCE_AUTHORITY.get(feed_name, DEFAULT_AUTHORITY)` as used in
`_score_item` (line 202). -/
def sourceAuthority (feed : String) : Nat :=
  (SOURCE_AUTHORITY.lookup feed).getD DEFAULT_AUTHORITY

/-- `_compute_recency` (lines 167–192): step function of the age in seconds
(the source compares `hours_ago` from `total_seconds() / 3600`; the
thresholds 2/6/12/24/48 hours are 7200/21600/43200/86400/172800 seconds).
`none` is the unparsable-date branch, which returns 0. -/
def compute_recency : Option Int → Nat
  | none => 0
  | some age =>
    if age < 0 then 10
    else if age ≤ 7200 then 10
    else if age ≤ 21600 then 8
    else if age ≤ 43200 then 6
    else if age ≤ 86400 then 4
    else if age ≤ 172800 then 2
    else 0

/-- `_score_item` (lines 195–205): sum of the four sub-scores. -/
def score_item (log3 : Int → Int) (item : NewsItem) : Int :=
  (compute_relevance item.title item.summary : Int)
    + compute_popularity log3 item
    + (sourceAuthority item.feed_name : Int)
    + (compute_recency item.ageSeconds : Int)

/-- The post-hoc AI-relevance bonus application in `refresh_news`
(lines 326–329): `if ai_bonus: score = min(score + ai_bonus, 100)`.
A bonus of 0 models an absent `_ai_bonus` key. -/
def applyAiBonus (score : Int) (bonus : Nat) : Int :=
  if bonus ≠ 0 then min (score + bonus) 100 else score

/-- A concrete non-negative instantiation of the `log3` parameter, used by
witnesses: an integer stand-in for `int(math.log2(max(v, 1)) * 3)`. -/
def pyLog3 (v : Int) : Int := 3 * (Nat.log2 (max v 1).toNat : Int)

/-! ## Deduplicator (`NewsAggregator._deduplicate`, lines 364–382) -/

/-- Loop of `_deduplicate`: `seen` is the list of previously accepted titles;
`similar a b` stands for `fuzz.ratio(a.lower(), b.lower()) > 80`. Items with
empty titles are dropped; an item similar to any accepted title is dropped;
otherwise the item is accepted and its title recorded. -/
def dedupeAux (similar : String → String → Bool) (seen : List String) :
    List NewsItem → List NewsItem
  | [] => []
  | it :: rest =>
    if it.title == "" then dedupeAux similar seen rest
    else if seen.any (fun s => similar it.title s) then dedupeAux similar seen rest
    else it :: dedupeAux similar (seen ++ [it.title]) rest

/-- `_deduplicate(items)`: single pass starting from no accepted titles. -/
def deduplicate (similar : String → String → Bool) (items : List NewsItem) : List NewsItem :=
  dedupeAux similar [] items

/-! ## Cohort batch-evaluation engine (`cohort_service.py`) -/

/-- The structured output of the external reasoning collaborator
(`ClaudeClient.analyze_company`), as read by `_analyze_batch`:
`raw.get("x_factors")`, `raw.get("y_factors")` are mappings (possibly
absent/empty, modelled as the empty list), `raw.get("x_score", 50)` are the
self-reported totals. -/
structure RawAnalysis where
  company_name : Option String := none
  x_factors : List (String × Int) := []
  y_factors : List (String × Int) := []
  x_score : Option Int := none
  y_score : Option Int := none
deriving DecidableEq, Repr

/-- Clamp one sub-factor to [0, 20]: `max(0, min(20, v))`. -/
def clampFactor (v : Int) : Int := max 0 (min 20 v)

/-- Score recomputation of `_analyze_batch` (lines 341–353): clamp every
sub-factor; if the (clamped) mapping is non-empty its values are summed,
otherwise the self-reported total (default 50) is clamped to [0, 100]. -/
def xScoreOf (raw : RawAnalysis) : Int :=
  let clamped := raw.x_factors.map (fun p => (p.1, clampFactor p.2))
  if clamped ≠ [] then (clamped.map Prod.snd).sum
  else max 0 (min 100 (raw.x_score.getD 50))

/-- The `y_score` recomputation, symmetric to `xScoreOf` (line 354). -/
def yScoreOf (raw : RawAnalysis) : Int :=
  let clamped := raw.y_factors.map (fun p => (p.1, clampFactor p.2))
  if clamped ≠ [] then (clamped.map Prod.snd).sum
  else max 0 (min 100 (raw.y_score.getD 50))

/-- An `Evaluation` row (db_models.py). `created_at` is in hours;
`x_score`/`y_score` are `Option` because every read path defends against
missing scores (cohort_service.py lines 27–28, evaluator_service.py
lines 111–112). -/
structure EvalRec where
  id : Nat
  company_name : String
  x_score : Option Int := none
  y_score : Option Int := none
  created_at : Int := 0
deriving DecidableEq, Repr

/-- A `CohortMember` row: the link from a cohort to an evaluation. -/
structure Member where
  evaluation_id : Nat
  position : Nat
deriving DecidableEq, Repr

/-- The mutable columns of a `Cohort` row. -/
structure CohortSt where
  status : String
  total : Int
  completed : Int
  current : Option String := none
deriving DecidableEq, Repr

/-- The state a batch task reads and writes: the cohort row, the evaluation
store, this cohort's member links, the autoincrement counter for evaluation
ids, the current time (hours), and the log of external reasoning calls made
(for stating "no new external call"). -/
structure EngineSt where
  cohort : CohortSt
  evals : List EvalRec := []
  members : List Member := []
  nextId : Nat := 0
  now : Int := 0
  calls : List String := []
deriving DecidableEq, Repr

/-- The reuse query of `_analyze_batch` (lines 313–322): evaluations whose
lowercased name matches, created at or after the cutoff, ordered by
`created_at` descending, limit 1 — i.e. the most recent match. -/
def findRecent : List EvalRec → String → Int → Option EvalRec
  | [], _, _ => none
  | e :: rest, name, cutoff =>
    if lowerStr e.company_name == lowerStr name && decide (cutoff ≤ e.created_at) then
      match findRecent rest name cutoff with
      | none => some e
      | some b => if e.created_at < b.created_at then some b else some e
    else findRecent rest name cutoff

/-- `REUSE_THRESHOLD_HOURS` (line 38). -/
def REUSE_THRESHOLD_HOURS : Int := 24

/-- One iteration of the `_analyze_batch` loop body (lines 302–390) for the
pair `(i, name)` from `enumerate(company_names)`: set `current_company`;
look up a recent evaluation; on a hit link it (no external call); on a miss
call the collaborator (`oracle`; `none` models the call raising), persist a
new evaluation and link it; then set `completed_companies = i + 1`. An
exception skips the remaining steps of this entity. -/
def stepB (oracle : String → Option RawAnalysis) (st : EngineSt) (p : Nat × String) :
    EngineSt :=
  let st1 := {st with cohort := {st.cohort with current := some p.2}}
  match findRecent st.evals p.2 (st.now - REUSE_THRESHOLD_HOURS) with
  | some e =>
    {st1 with members := st1.members ++ [{evaluation_id := e.id, position := p.1}],
              cohort := {st1.cohort with completed := (p.1 : Int) + 1}}
  | none =>
    match oracle p.2 with
    | none => {st1 with calls := st1.calls ++ [p.2]}
    | some raw =>
      let ev : EvalRec :=
        { id := st1.nextId, company_name := raw.company_name.getD p.2,
          x_score := some (xScoreOf raw), y_score := some (yScoreOf raw),
          created_at := st.now }
      {st1 with evals := st1.evals ++ [ev], nextId := st1.nextId + 1,
                calls := st1.calls ++ [p.2],
                members := st1.members ++ [{evaluation_id := ev.id, position := p.1}],
                cohort := {st1.cohort with completed := (p.1 : Int) + 1}}

/-- One iteration of the `_analyze_batch_append` loop body (lines 407–494):
identical to `stepB` except that the member position is `start_pos + i`
(carried in `p.1`) and progress is `completed_companies += 1`. -/
def stepA (oracle : String → Option RawAnalysis) (st : EngineSt) (p : Nat × String) :
    EngineSt :=
  let st1 := {st with cohort := {st.cohort with current := some p.2}}
  match findRecent st.evals p.2 (st.now - REUSE_THRESHOLD_HOURS) with
  | some e =>
    {st1 with members := st1.members ++ [{evaluation_id := e.id, position := p.1}],
              cohort := {st1.cohort with completed := st1.cohort.completed + 1}}
  | none =>
    match oracle p.2 with
    | none => {st1 with calls := st1.calls ++ [p.2]}
    | some raw =>
      let ev : EvalRec :=
        { id := st1.nextId, company_name := raw.company_name.getD p.2,
          x_score := some (xScoreOf raw), y_score := some (yScoreOf raw),
          created_at := st.now }
      {st1 with evals := st1.evals ++ [ev], nextId := st1.nextId + 1,
                calls := st1.calls ++ [p.2],
                members := st1.members ++ [{evaluation_id := ev.id, position := p.1}],
                cohort := {st1.cohort with completed := st1.cohort.completed + 1}}

/-- End of either batch loop (lines 392–398): set `status = "complete"`,
clear `current_company`. -/
def finishBatch (st : EngineSt) : EngineSt :=
  {st with cohort := {st.cohort with status := "complete", current := none}}

/-- Fold a step function over the enumerated company list. -/
def runSteps (step : EngineSt → Nat × String → EngineSt) :
    EngineSt → List (Nat × String) → EngineSt
  | st, [] => st
  | st, p :: ps => runSteps step (step st p) ps

/-- All states written by a batch task, in order, ending with the state after
the final `status = "complete"` update. -/
def batchTrace (step : EngineSt → Nat × String → EngineSt) :
    EngineSt → List (Nat × String) → List EngineSt
  | st, [] => [finishBatch st]
  | st, p :: ps => step st p :: batchTrace step (step st p) ps

/-- `_analyze_batch(cohort_id, company_names)` end to end: the loop over
`enumerate(company_names)` followed by the completion update. -/
def runBatch (oracle : String → Option RawAnalysis) (companies : List String)
    (st : EngineSt) : EngineSt :=
  finishBatch (runSteps (stepB oracle) st (companies.enumFrom 0))

/-- `_analyze_batch_append(cohort_id, company_names, start_pos)` end to end:
positions run from `start_pos`. -/
def runAppend (oracle : String → Option RawAnalysis) (companies : List String)
    (startPos : Nat) (st : EngineSt) : EngineSt :=
  finishBatch (runSteps (stepA oracle) st (companies.enumFrom startPos))

/-- The cleaning loop shared by `create_cohort` (lines 93–100) and the add
path of `edit_cohort` (lines 244–250): strip each name, drop empty results,
drop a name whose lowercase form was already seen, preserving first-seen
order. `seen0` is the initial seen-set (empty for create, the existing
member names for edit). -/
def cleanStep (acc : List String × List String) (n : String) : List String × List String :=
  let stripped := stripStr n
  if stripped != "" && !(acc.1.contains (lowerStr stripped)) then
    (lowerStr stripped :: acc.1, acc.2 ++ [stripped])
  else acc

/-- The cleaning pass as a fold of `cleanStep` (the loop of lines 93–100 /
244–250), returning the cleaned list. -/
def cleanNamesFrom (seen0 : List String) (names : List String) : List String :=
  (names.foldl cleanStep (seen0, [])).2

/-- The `create_cohort` cleaning pass, starting from an empty seen-set. -/
def cleanNames (names : List String) : List String := cleanNamesFrom [] names

/-- Modelled from the spec: "deduplicate entity names case-insensitively
preserving first-seen order" as a direct recursion, for comparison with the
source's fold (`cleanNamesFrom`). -/
def dedupFirstSeen (seen : List String) : List String → List String
  | [] => []
  | n :: rest =>
    let s := stripStr n
    if s != "" && !(seen.contains (lowerStr s)) then
      s :: dedupFirstSeen (lowerStr s :: seen) rest
    else dedupFirstSeen seen rest

/-- `create_cohort` (lines 89–117): clean the names, persist the cohort in
`analyzing` state with `total_companies = len(clean_names)`,
`completed_companies = 0`, `current_company = clean_names[0]` when any.
Returns the cohort row and the cleaned list handed to the background task. -/
def createCohort (names : List String) : CohortSt × List String :=
  let clean := cleanNames names
  ({ status := "analyzing", total := (clean.length : Int), completed := 0,
     current := clean.head? }, clean)

/-- The remove path of `edit_cohort` (lines 210–230): `none` models the
`ValueError` for a cohort that is not complete/errored; an empty id list is
skipped; otherwise the members whose evaluation id is named are deleted,
`total_companies` is decremented by the request count (no floor), and
`completed_companies` is decremented with a floor at 0. Evaluations are not
touched. -/
def editRemove (st : EngineSt) (removeIds : List Nat) : Option EngineSt :=
  if st.cohort.status = "complete" ∨ st.cohort.status = "error" then
    if removeIds = [] then some st
    else some
      {st with
        members := st.members.filter (fun m => !(removeIds.contains m.evaluation_id)),
        cohort := {st.cohort with
          total := st.cohort.total - (removeIds.length : Int),
          completed := max 0 (st.cohort.completed - (removeIds.length : Int))}}
  else none

/-- Lowercased company names of the cohort's current members (the join in
lines 235–241). -/
def memberNamesLower (st : EngineSt) : List String :=
  st.members.filterMap
    (fun m => (st.evals.find? (fun e => e.id == m.evaluation_id)).map
      (fun e => lowerStr e.company_name))

/-- The add path of `edit_cohort` (lines 233–273): `none` models the
`ValueError`; otherwise the new names are cleaned against the existing member
names, and when any survive the cohort goes back to `analyzing`,
`total_companies` grows by their count, `current_company` points at the
first, and the append task will start at `max(position) + 1`. Returns the
updated state, the cleaned new names, and the start position (0 when nothing
survives and no task is launched). -/
def editAdd (st : EngineSt) (addNames : List String) :
    Option (EngineSt × List String × Nat) :=
  if st.cohort.status = "complete" ∨ st.cohort.status = "error" then
    if cleanNamesFrom (memberNamesLower st) addNames = [] then some (st, [], 0)
    else some
      ({st with cohort := {st.cohort with
          status := "analyzing",
          total := st.cohort.total +
            ((cleanNamesFrom (memberNamesLower st) addNames).length : Int),
          current := (cleanNamesFrom (memberNamesLower st) addNames).head?}},
       cleanNamesFrom (memberNamesLower st) addNames,
       ((st.members.map (fun m => m.position)).foldl max 0) + 1)
  else none

/-! ## Read paths that re-derive the zone -/

/-- Zone shown in `get_cohort_detail` member rows (line 155). -/
def cohortDetailZone (e : EvalRec) : String := derive_zone e.x_score e.y_score

/-- Zone shown in `get_cohort_matrix` rows (line 192). -/
def matrixZone (e : EvalRec) : String := derive_zone e.x_score e.y_score

/-- Zone computed by `EvaluatorService._evaluation_to_dict`
(lines 110–113): substitute 50 for a missing score, then apply the
evaluator's threshold rule. -/
def evalDictZone (e : EvalRec) : String :=
  deriveZoneI (e.x_score.getD 50) (e.y_score.getD 50)

/-! ## Concrete instances used by witnesses and counterexamples -/

/-- The spec's concrete collaborator response for C3: sub-factors
`{a: 25, b: -3, c: 5, d: 5, e: 5}` with a self-reported total of 37. -/
def rawC3 : RawAnalysis :=
  { company_name := some "Acme",
    x_factors := [("a", 25), ("b", -3), ("c", 5), ("d", 5), ("e", 5)],
    y_factors := [("a", 25), ("b", -3), ("c", 5), ("d", 5), ("e", 5)],
    x_score := some 37, y_score := some 37 }

/-- An engine state with an empty evaluation store. -/
def stC3 : EngineSt :=
  { cohort := { status := "analyzing", total := 1, completed := 0 }, now := 1000 }

/-- A reachable complete cohort with `total_companies = 0`: created from an
empty entity list and run to completion by its (empty) background batch. -/
def stC6 : EngineSt :=
  runBatch (fun _ => none) (createCohort []).2 { cohort := (createCohort []).1 }

/-- The state produced by removing one (nonexistent) evaluation id from
`stC6`: `total_companies` is -1, strictly below `completed_companies`. -/
def stC6' : EngineSt :=
  { cohort := { status := "complete", total := -1, completed := 0 } }

/-- A complete two-member cohort for the C6 witness. -/
def stC6w : EngineSt :=
  { cohort := { status := "complete", total := 2, completed := 2 },
    evals := [{ id := 1, company_name := "A", x_score := some 60, y_score := some 60 },
              { id := 2, company_name := "B", x_score := some 40, y_score := some 40 }],
    members := [{ evaluation_id := 1, position := 0 },
                { evaluation_id := 2, position := 1 }],
    nextId := 3 }

/-- The state produced by removing member 2 from `stC6w`. -/
def stC6w' : EngineSt :=
  { cohort := { status := "complete", total := 1, completed := 1 },
    evals := [{ id := 1, company_name := "A", x_score := some 60, y_score := some 60 },
              { id := 2, company_name := "B", x_score := some 40, y_score := some 40 }],
    members := [{ evaluation_id := 1, position := 0 }],
    nextId := 3 }

/-- A successful collaborator response for "GoodCo" (x sub-factors summing
to 70, y sub-factors summing to 25). -/
def rawGood : RawAnalysis :=
  { company_name := some "GoodCo",
    x_factors := [("a", 15), ("b", 15), ("c", 15), ("d", 15), ("e", 10)],
    y_factors := [("a", 5), ("b", 5), ("c", 5), ("d", 5), ("e", 5)] }

/-- An external collaborator that raises for every entity except "GoodCo". -/
def oracleC5 (s : String) : Option RawAnalysis :=
  if s == "GoodCo" then some rawGood else none

/-- The engine state right after `create_cohort(["FailCo", "GoodCo"])`. -/
def stC5 : EngineSt :=
  { cohort := (createCohort ["FailCo", "GoodCo"]).1, now := 100 }

/-- The engine state after the background batch finishes: "FailCo" (index 0)
raised and was skipped, "GoodCo" (index 1) succeeded. -/
def finalC5 : EngineSt := runBatch oracleC5 (createCohort ["FailCo", "GoodCo"]).2 stC5

/-- A complete cohort with one member, for the C8 counterexample: removing
two evaluation ids drives `total_companies` to -1. -/
def stC8 : EngineSt :=
  { cohort := { status := "complete", total := 1, completed := 1 },
    evals := [{ id := 7, company_name := "Acme", x_score := some 60,
                y_score := some 60, created_at := 0 }],
    members := [{ evaluation_id := 7, position := 0 }], nextId := 8 }

/-- The state produced by removing `[7, 8]` from `stC8`. -/
def stC8' : EngineSt :=
  { cohort := { status := "complete", total := -1, completed := 0 },
    evals := [{ id := 7, company_name := "Acme", x_score := some 60,
                y_score := some 60, created_at := 0 }],
    members := [], nextId := 8 }

/-- The state produced by removing `[7]` from `stC8` (used by the C8
witness). -/
def stC8w : EngineSt :=
  { cohort := { status := "complete", total := 0, completed := 0 },
    evals := [{ id := 7, company_name := "Acme", x_score := some 60,
                y_score := some 60, created_at := 0 }],
    members := [], nextId := 8 }

/-- A hackernews item with a large negative `points` counter: the linear
engagement transform of `_compute_popularity` has no lower clamp, so the
composite score goes far below 0. -/
def badNewsItem : NewsItem :=
  { source := "hackernews", engagement := { points := -10000 } }

/-- An ordinary hackernews item with non-negative engagement counters. -/
def goodNewsItem : NewsItem :=
  { title := "AI agents replacing SaaS", summary := "", source := "hackernews",
    feed_name := "Hacker News", engagement := { points := 250, comments := 40 },
    ageSeconds := some 3600 }

/-- A stored evaluation of "Acme" created at hour 999 (1 hour before
`stC4.now`), inside the 24-hour reuse window. -/
def evC4 : EvalRec :=
  { id := 5, company_name := "Acme", x_score := some 70, y_score := some 60,
    created_at := 999 }

/-- An engine state whose store already holds `evC4`, at hour 1000. -/
def stC4 : EngineSt :=
  { cohort := { status := "analyzing", total := 1, completed := 0 },
    evals := [evC4], nextId := 6, now := 1000 }

/-! ## Theorems -/

/-- C1: the zone classifier is a pure total function: for every pair of
scores (x, y) in [0, 100]² it returns exactly one of the four values
`fortress`/`compression`/`adaptation`/`dead`, following the rule
fortress iff x ≥ 50 ∧ y ≥ 50, compression iff x < 50 ∧ y ≥ 50,
adaptation iff x ≥ 50 ∧ y < 50, dead iff x < 50 ∧ y < 50 — and the
cohort-service copy of the classifier agrees with the evaluator's on
present scores. (Totality and purity are by construction: `deriveZoneI`
is a total function of its two arguments.) -/
theorem zone_classifier_four_way (x y : Int)
    (hx0 : 0 ≤ x) (hx1 : x ≤ 100) (hy0 : 0 ≤ y) (hy1 : y ≤ 100) :
    (deriveZoneI x y = "fortress" ↔ x ≥ 50 ∧ y ≥ 50) ∧
    (deriveZoneI x y = "compression" ↔ x < 50 ∧ y ≥ 50) ∧
    (deriveZoneI x y = "adaptation" ↔ x ≥ 50 ∧ y < 50) ∧
    (deriveZoneI x y = "dead" ↔ x < 50 ∧ y < 50) ∧
    derive_zone (some x) (some y) = deriveZoneI x y := by
  have d1 : ("fortress" : String) ≠ "compression" := by decide
  have d2 : ("fortress" : String) ≠ "adaptation" := by decide
  have d3 : ("fortress" : String) ≠ "dead" := by decide
  have d4 : ("compression" : String) ≠ "adaptation" := by decide
  have d5 : ("compression" : String) ≠ "dead" := by decide
  have d6 : ("adaptation" : String) ≠ "dead" := by decide
  refine ⟨?_, ?_, ?_, ?_, rfl⟩ <;>
  · unfold deriveZoneI
    split_ifs with h1 h2 h3 <;> simp_all

/-- Witness for C1 at the concrete point (60, 30). -/
theorem zone_classifier_four_way_witness :
    (0 : Int) ≤ 60 ∧ (60 : Int) ≤ 100 ∧ (0 : Int) ≤ 30 ∧ (30 : Int) ≤ 100 ∧
    deriveZoneI 60 30 = "adaptation" :=
  ⟨by decide, by decide, by decide, by decide,
   ((zone_classifier_four_way 60 30 (by decide) (by decide) (by decide)
      (by decide)).2.2.1).mpr (by decide)⟩

/-- C10: when an evaluation's `x_score` or `y_score` is missing, the zone
derivation substitutes 50 for the missing value before applying the
threshold rule; in particular an evaluation with both scores missing is
classified "fortress" on every read path (cohort detail, matrix, and the
evaluation serializer). -/
theorem missing_scores_default_fortress :
    (∀ x? y? : Option Int, derive_zone x? y? = deriveZoneI (x?.getD 50) (y?.getD 50)) ∧
    derive_zone none none = "fortress" ∧
    (∀ e : EvalRec, e.x_score = none → e.y_score = none →
      cohortDetailZone e = "fortress" ∧ matrixZone e = "fortress" ∧
      evalDictZone e = "fortress") := by
  refine ⟨fun x? y? => rfl, by decide, ?_⟩
  intro e hx hy
  refine ⟨?_, ?_, ?_⟩ <;> simp only [cohortDetailZone, matrixZone, evalDictZone, hx, hy] <;>
    decide

/-- Witness for C10: a concrete evaluation with both scores missing. -/
theorem missing_scores_default_fortress_witness :
    cohortDetailZone {id := 1, company_name := "Acme"} = "fortress" ∧
    matrixZone {id := 1, company_name := "Acme"} = "fortress" ∧
    evalDictZone {id := 1, company_name := "Acme"} = "fortress" :=
  missing_scores_default_fortress.2.2 {id := 1, company_name := "Acme"} rfl rfl

/-- One-pass deduplication is stable on its own output, whatever the
similarity measure: re-deduplicating with the same already-seen titles
changes nothing. -/
theorem dedupeAux_idem (similar : String → String → Bool) :
    ∀ (l : List NewsItem) (seen : List String),
      dedupeAux similar seen (dedupeAux similar seen l) = dedupeAux similar seen l
  | [], _ => rfl
  | it :: rest, seen => by
    rw [dedupeAux]
    by_cases h1 : it.title = ""
    · rw [if_pos (by simp [h1])]
      exact dedupeAux_idem similar rest seen
    · rw [if_neg (by simp [h1])]
      by_cases h2 : (seen.any (fun s => similar it.title s)) = true
      · rw [if_pos h2]
        exact dedupeAux_idem similar rest seen
      · rw [if_neg h2]
        conv_lhs => rw [dedupeAux]
        rw [if_neg (by simp [h1]), if_neg h2]
        rw [dedupeAux_idem similar rest (seen ++ [it.title])]

/-- C9: deduplication is idempotent, for every similarity measure
(in the source, `fuzz.ratio(·.lower(), ·.lower()) > 80`) and every item
list: `dedupe(dedupe(L)) == dedupe(L)`. -/
theorem dedupe_idempotent (similar : String → String → Bool) (items : List NewsItem) :
    deduplicate similar (deduplicate similar items) = deduplicate similar items :=
  dedupeAux_idem similar items []

/-- C8 counterexample: removing two evaluation ids from a complete cohort
with `total_companies = 1` leaves `total_companies = -1` — the remove path
floors `completed_companies` at 0 but not `total_companies`. -/
theorem edit_remove_counterexample :
    editRemove stC8 [7, 8] = some stC8' ∧ stC8'.cohort.total < 0 ∧
    stC8'.cohort.completed = 0 ∧ stC8'.evals = stC8.evals := by decide

/-- C8 amended: for every remove edit of a complete-or-errored cohort, the
named membership links are deleted (and only those), the evaluations are
untouched, `completed_companies` is decremented by the removed count with a
floor at 0 and so never becomes negative, while `total_companies` is
decremented by the removed count without a floor (and can become negative,
as the counterexample shows). -/
theorem edit_remove_amended (st : EngineSt) (ids : List Nat) (st' : EngineSt)
    (h : editRemove st ids = some st') (hne : ids ≠ []) :
    st'.evals = st.evals ∧
    st'.members = st.members.filter (fun m => !(ids.contains m.evaluation_id)) ∧
    (∀ m ∈ st.members, ids.contains m.evaluation_id = true → m ∉ st'.members) ∧
    (∀ m ∈ st'.members, m ∈ st.members ∧ ids.contains m.evaluation_id = false) ∧
    st'.cohort.completed = max 0 (st.cohort.completed - (ids.length : Int)) ∧
    0 ≤ st'.cohort.completed ∧
    st'.cohort.total = st.cohort.total - (ids.length : Int) := by
  unfold editRemove at h
  by_cases hs : st.cohort.status = "complete" ∨ st.cohort.status = "error"
  · rw [if_pos hs, if_neg hne] at h
    obtain rfl := Option.some.inj h
    refine ⟨rfl, rfl, ?_, ?_, rfl, le_max_left _ _, rfl⟩
    · intro m hm hin
      have hidin : m.evaluation_id ∈ ids := by simpa using hin
      simp [List.mem_filter, hidin]
    · intro m hm
      rw [List.mem_filter] at hm
      exact ⟨hm.1, by simpa using hm.2⟩
  · rw [if_neg hs] at h
    exact absurd h (by simp)

/-- Witness for C8 (amended): removing the only member of `stC8` keeps the
evaluation store intact and leaves a non-negative completed count. -/
theorem edit_remove_amended_witness :
    stC8w.evals = stC8.evals ∧ 0 ≤ stC8w.cohort.completed ∧
    stC8w.cohort.total = stC8.cohort.total - 1 := by
  have h := edit_remove_amended stC8 [7] stC8w (by decide) (by decide)
  exact ⟨h.1, h.2.2.2.2.2.1, h.2.2.2.2.2.2⟩

/-- C5, evaluated at the failing input: batching `["FailCo", "GoodCo"]`
where the external call raises for "FailCo" and succeeds for "GoodCo". The
batch does finish with status `complete` and the failing entity gets no
member link — but the final `completed_companies` is 2, not the number of
successful entities (1): the loop writes `completed_companies = i + 1` on
each success, silently counting the skipped "FailCo" as completed. (The
sibling append path uses `completed_companies += 1` instead, which would
give 1 here.) -/
theorem batch_failure_divergence :
    finalC5.cohort.status = "complete" ∧
    finalC5.cohort.current = none ∧
    finalC5.members = [{ evaluation_id := 0, position := 1 }] ∧
    (∀ m ∈ finalC5.members, m.position ≠ 0) ∧
    finalC5.calls = ["FailCo", "GoodCo"] ∧
    finalC5.cohort.total = 2 ∧
    finalC5.cohort.completed = 2 ∧
    finalC5.members.length = 1 := by decide

/-- Unfolding lemma relating the cleaning fold to the spec-style recursion:
folding `cleanStep` from any seen-set produces exactly the first-seen
deduplication of the remaining names. -/
theorem foldl_cleanStep_eq (names : List String) :
    ∀ (seen acc : List String),
      (names.foldl cleanStep (seen, acc)).2 = acc ++ dedupFirstSeen seen names := by
  induction names with
  | nil => intro seen acc; simp [dedupFirstSeen]
  | cons n rest ih =>
    intro seen acc
    rw [List.foldl_cons, dedupFirstSeen]
    show (rest.foldl cleanStep (cleanStep (seen, acc) n)).2 = _
    have hstep : cleanStep (seen, acc) n =
        if (stripStr n != "" && !(seen.contains (lowerStr (stripStr n)))) = true then
          (lowerStr (stripStr n) :: seen, acc ++ [stripStr n])
        else (seen, acc) := rfl
    rw [hstep]
    by_cases h : (stripStr n != "" && !(seen.contains (lowerStr (stripStr n)))) = true
    · rw [if_pos h, if_pos h, ih, List.append_assoc]
      rfl
    · rw [if_neg h, if_neg h, ih]

/-- C7: cohort creation deduplicates entity names case-insensitively after
trimming whitespace, preserving first-seen order (the cleaning fold equals
the first-seen deduplication recursion), and sets `total_companies` to the
number of distinct names; in particular `["Acme", "acme", " Acme "]` yields
`total_companies = 1`. -/
theorem create_cohort_dedup :
    (∀ names, cleanNames names = dedupFirstSeen [] names) ∧
    (∀ names, (createCohort names).1.total = ((cleanNames names).length : Int) ∧
      (createCohort names).1.status = "analyzing" ∧
      (createCohort names).1.completed = 0) ∧
    (createCohort ["Acme", "acme", " Acme "]).1.total = 1 ∧
    (createCohort ["Acme", "acme", " Acme "]).2 = ["Acme"] := by
  refine ⟨fun names => ?_, fun names => ⟨rfl, rfl, rfl⟩, by decide, by decide⟩
  exact (foldl_cleanStep_eq names [] []).trans (by simp)

/-- C3: when the external reasoning collaborator returns non-empty
sub-factor mappings, the evaluation persisted by the batch engine carries
`x_score` (and likewise `y_score`) equal to the sum of the sub-factors
after each is individually clamped to [0, 20] — never the collaborator's
self-reported total. -/
theorem clamped_factor_scores (st : EngineSt) (i : Nat) (name : String)
    (raw : RawAnalysis)
    (hfind : findRecent st.evals name (st.now - REUSE_THRESHOLD_HOURS) = none)
    (hx : raw.x_factors ≠ []) (hy : raw.y_factors ≠ []) :
    ∃ ev : EvalRec,
      (stepB (fun _ => some raw) st (i, name)).evals = st.evals ++ [ev] ∧
      ev.x_score = some ((raw.x_factors.map (fun p => clampFactor p.2)).sum) ∧
      ev.y_score = some ((raw.y_factors.map (fun p => clampFactor p.2)).sum) ∧
      (∀ p ∈ raw.x_factors, 0 ≤ clampFactor p.2 ∧ clampFactor p.2 ≤ 20) ∧
      (∀ p ∈ raw.y_factors, 0 ≤ clampFactor p.2 ∧ clampFactor p.2 ≤ 20) := by
  have hxs : xScoreOf raw = (raw.x_factors.map (fun p => clampFactor p.2)).sum := by
    unfold xScoreOf
    rw [if_pos (by simpa using hx), List.map_map]
    rfl
  have hys : yScoreOf raw = (raw.y_factors.map (fun p => clampFactor p.2)).sum := by
    unfold yScoreOf
    rw [if_pos (by simpa using hy), List.map_map]
    rfl
  refine ⟨{ id := st.nextId, company_name := raw.company_name.getD name,
            x_score := some (xScoreOf raw), y_score := some (yScoreOf raw),
            created_at := st.now }, ?_, ?_, ?_, ?_, ?_⟩
  · unfold stepB
    rw [hfind]
  · rw [hxs]
  · rw [hys]
  · intro p _
    unfold clampFactor
    omega
  · intro p _
    unfold clampFactor
    omega

/-- Every value in the authority table is at most 20, so a defaulted lookup
is bounded by 20. -/
theorem lookupD_le_twenty :
    ∀ (l : List (String × Nat)), (∀ p ∈ l, p.2 ≤ 20) → ∀ s : String,
      ((l.lookup s).getD DEFAULT_AUTHORITY) ≤ 20 := by
  intro l
  induction l with
  | nil =>
    intro _ s
    simp [List.lookup]
    decide
  | cons p rest ih =>
    obtain ⟨k, v⟩ := p
    intro hl s
    rw [List.lookup]
    cases h : (s == k)
    · simp only [h, cond_false]
      exact ih (fun q hq => hl q (List.mem_cons_of_mem _ hq)) s
    · simp only [h, cond_true, Option.getD_some]
      exact hl (k, v) (List.mem_cons_self _ _)

/-- The authority sub-score is bounded by 20 for every feed name. -/
theorem sourceAuthority_le (s : String) : sourceAuthority s ≤ 20 :=
  lookupD_le_twenty SOURCE_AUTHORITY (by decide) s

/-- The popularity sub-score never exceeds its cap of 30. -/
theorem popularity_le_thirty (log3 : Int → Int) (item : NewsItem) :
    compute_popularity log3 item ≤ 30 := by
  unfold compute_popularity
  split_ifs <;> omega

/-- The popularity sub-score is non-negative whenever the raw engagement
counters fed to the unclamped hackernews transform are non-negative and the
log transform is non-negative. -/
theorem popularity_nonneg (log3 : Int → Int) (item : NewsItem)
    (hlog : ∀ v, 0 ≤ log3 v)
    (hp : 0 ≤ item.engagement.points) (hc : 0 ≤ item.engagement.comments) :
    0 ≤ compute_popularity log3 item := by
  unfold compute_popularity
  have h1 : 0 ≤ Int.tdiv (2 * item.engagement.points + item.engagement.comments) 20 :=
    Int.tdiv_nonneg (by omega) (by omega)
  have h2 := hlog item.engagement.score
  have h3 := hlog (item.engagement.likes + 3 * item.engagement.retweets)
  split_ifs <;> omega

/-- The recency sub-score never exceeds 10. -/
theorem recency_le_ten (a : Option Int) : compute_recency a ≤ 10 := by
  cases a
  · decide
  · rw [compute_recency]
    split_ifs <;> omega

/-- C2 counterexample: a hackernews item whose `points` counter is -10000
scores -992 — far outside [0, 100] — because the hackernews branch of
`_compute_popularity` caps its linear transform above at 30 but not below at
0. The post-hoc bonus path (absent bonus) keeps the same value. -/
theorem score_in_range_counterexample :
    score_item pyLog3 badNewsItem = -992 ∧
    applyAiBonus (score_item pyLog3 badNewsItem) 0 = -992 ∧
    ¬(0 ≤ score_item pyLog3 badNewsItem) := by decide

/-- C2 amended: for every news item whose hackernews engagement counters
(`points`, `comments`) are non-negative — and with the logarithmic
engagement transform non-negative, as `int(log2(max(v,1))*3)` is — the
composite score, with or without the post-hoc external-relevance bonus,
lies in [0, 100]. (The upper bound needs no hypotheses; only the lower
bound does, as the counterexample shows.) -/
theorem score_in_range_amended (log3 : Int → Int) (item : NewsItem) (bonus : Nat)
    (hlog : ∀ v, 0 ≤ log3 v)
    (hp : 0 ≤ item.engagement.points) (hc : 0 ≤ item.engagement.comments) :
    0 ≤ score_item log3 item ∧ score_item log3 item ≤ 100 ∧
    0 ≤ applyAiBonus (score_item log3 item) bonus ∧
    applyAiBonus (score_item log3 item) bonus ≤ 100 := by
  have hrel : compute_relevance item.title item.summary ≤ 40 := Nat.min_le_right _ _
  have hpop1 := popularity_le_thirty log3 item
  have hpop0 := popularity_nonneg log3 item hlog hp hc
  have hauth := sourceAuthority_le item.feed_name
  have hrec := recency_le_ten item.ageSeconds
  have hrel' : (compute_relevance item.title item.summary : Int) ≤ 40 := by exact_mod_cast hrel
  have hauth' : (sourceAuthority item.feed_name : Int) ≤ 20 := by exact_mod_cast hauth
  have hrec' : (compute_recency item.ageSeconds : Int) ≤ 10 := by exact_mod_cast hrec
  have hrel0 : (0 : Int) ≤ (compute_relevance item.title item.summary : Int) :=
    Int.natCast_nonneg _
  have hauth0 : (0 : Int) ≤ (sourceAuthority item.feed_name : Int) := Int.natCast_nonneg _
  have hrec0 : (0 : Int) ≤ (compute_recency item.ageSeconds : Int) := Int.natCast_nonneg _
  have hb0 : (0 : Int) ≤ (bonus : Int) := Int.natCast_nonneg _
  unfold score_item applyAiBonus
  refine ⟨by omega, by omega, ?_, ?_⟩ <;> split_ifs <;> omega

/-- Witness for C2 (amended): a concrete non-negative hackernews item with a
bonus of 10 stays within [0, 100]. -/
theorem score_in_range_amended_witness :
    0 ≤ score_item pyLog3 goodNewsItem ∧ score_item pyLog3 goodNewsItem ≤ 100 ∧
    0 ≤ applyAiBonus (score_item pyLog3 goodNewsItem) 10 ∧
    applyAiBonus (score_item pyLog3 goodNewsItem) 10 ≤ 100 :=
  score_in_range_amended pyLog3 goodNewsItem 10
    (fun _ => mul_nonneg (by norm_num) (Int.natCast_nonneg _))
    (by decide) (by decide)

/-- Soundness of the reuse query: a returned evaluation is in the store,
matches the requested name case-insensitively, and is at least as recent as
the cutoff. -/
theorem findRecent_some_spec (name : String) (cutoff : Int) :
    ∀ (evals : List EvalRec) (e : EvalRec), findRecent evals name cutoff = some e →
      e ∈ evals ∧ lowerStr e.company_name = lowerStr name ∧ cutoff ≤ e.created_at := by
  intro evals
  induction evals with
  | nil => intro e h; simp [findRecent] at h
  | cons a rest ih =>
    intro e h
    rw [findRecent] at h
    by_cases hc :
        (lowerStr a.company_name == lowerStr name && decide (cutoff ≤ a.created_at)) = true
    · rw [if_pos hc] at h
      rw [Bool.and_eq_true, beq_iff_eq, decide_eq_true_eq] at hc
      rcases hr : findRecent rest name cutoff with _ | b
      · rw [hr] at h
        have h' : some a = some e := h
        obtain rfl : a = e := Option.some.inj h'
        exact ⟨List.mem_cons_self _ _, hc.1, hc.2⟩
      · rw [hr] at h
        have h' : (if a.created_at < b.created_at then some b else some a) = some e := h
        by_cases hlt : a.created_at < b.created_at
        · obtain ⟨hmem, h1, h2⟩ := ih b hr
          rw [if_pos hlt] at h'
          obtain rfl : b = e := Option.some.inj h'
          exact ⟨List.mem_cons_of_mem _ hmem, h1, h2⟩
        · rw [if_neg hlt] at h'
          obtain rfl : a = e := Option.some.inj h'
          exact ⟨List.mem_cons_self _ _, hc.1, hc.2⟩
    · rw [if_neg hc] at h
      obtain ⟨hmem, h1, h2⟩ := ih e h
      exact ⟨List.mem_cons_of_mem _ hmem, h1, h2⟩

/-- Completeness of the reuse query: if the store holds a matching, recent
evaluation, the query finds one. -/
theorem findRecent_isSome_of_mem (name : String) (cutoff : Int) :
    ∀ (evals : List EvalRec) (e : EvalRec), e ∈ evals →
      lowerStr e.company_name = lowerStr name → cutoff ≤ e.created_at →
      (findRecent evals name cutoff).isSome := by
  intro evals
  induction evals with
  | nil => intro e he; simp at he
  | cons a rest ih =>
    intro e he hn hc
    rw [findRecent]
    rcases List.mem_cons.mp he with rfl | he'
    · rw [if_pos (by simp [hn, hc])]
      cases hfr : findRecent rest name cutoff
      · rfl
      · split <;> first | rfl | (split <;> rfl)
    · by_cases hcond :
        (lowerStr a.company_name == lowerStr name && decide (cutoff ≤ a.created_at)) = true
      · rw [if_pos hcond]
        cases hfr : findRecent rest name cutoff
        · rfl
        · split <;> first | rfl | (split <;> rfl)
      · rw [if_neg hcond]
        exact ih e he' hn hc

/-- C4: per entity processed by the batch engine, if an evaluation with the
same name (case-insensitively) created within the last 24 hours exists, the
member links to that same existing evaluation, the store is unchanged and no
external reasoning call is made (the step does not even depend on the
collaborator); if no such evaluation exists, the external call is made, and
when it returns, a new evaluation stamped with the current time is persisted
and linked. -/
theorem reuse_window (st : EngineSt) (i : Nat) (name : String)
    (oracle : String → Option RawAnalysis) :
    (∀ e, findRecent st.evals name (st.now - REUSE_THRESHOLD_HOURS) = some e →
      e ∈ st.evals ∧ lowerStr e.company_name = lowerStr name ∧
      st.now - REUSE_THRESHOLD_HOURS ≤ e.created_at ∧
      (stepB oracle st (i, name)).members =
        st.members ++ [{evaluation_id := e.id, position := i}] ∧
      (stepB oracle st (i, name)).evals = st.evals ∧
      (stepB oracle st (i, name)).calls = st.calls ∧
      (∀ oracle', stepB oracle' st (i, name) = stepB oracle st (i, name))) ∧
    (findRecent st.evals name (st.now - REUSE_THRESHOLD_HOURS) = none →
      (∀ e ∈ st.evals, ¬(lowerStr e.company_name = lowerStr name ∧
        st.now - REUSE_THRESHOLD_HOURS ≤ e.created_at)) ∧
      (stepB oracle st (i, name)).calls = st.calls ++ [name] ∧
      (∀ raw, oracle name = some raw →
        ∃ ev : EvalRec, ev.created_at = st.now ∧
          (stepB oracle st (i, name)).evals = st.evals ++ [ev] ∧
          (stepB oracle st (i, name)).members =
            st.members ++ [{evaluation_id := ev.id, position := i}])) := by
  constructor
  · intro e hfind
    obtain ⟨hmem, h1, h2⟩ := findRecent_some_spec name _ st.evals e hfind
    refine ⟨hmem, h1, h2, ?_, ?_, ?_, ?_⟩
    · unfold stepB; rw [hfind]
    · unfold stepB; rw [hfind]
    · unfold stepB; rw [hfind]
    · intro oracle'
      unfold stepB
      rw [hfind]
  · intro hfind
    refine ⟨?_, ?_, ?_⟩
    · intro e hmem hmatch
      have := findRecent_isSome_of_mem name (st.now - REUSE_THRESHOLD_HOURS)
        st.evals e hmem hmatch.1 hmatch.2
      rw [hfind] at this
      simp at this
    · unfold stepB
      rw [hfind]
      cases horacle : oracle name <;> rfl
    · intro raw horacle
      refine ⟨{ id := st.nextId, company_name := raw.company_name.getD name,
                x_score := some (xScoreOf raw), y_score := some (yScoreOf raw),
                created_at := st.now }, rfl, ?_, ?_⟩ <;>
        (unfold stepB; rw [hfind, horacle])

/-- Witness for C4: an evaluation of "Acme" created 1 hour ago is reused for
"acme" — the member links to evaluation 5 and no external call is logged. -/
theorem reuse_window_witness :
    (stepB (fun _ => none) stC4 (0, "acme")).members =
      stC4.members ++ [{evaluation_id := 5, position := 0}] ∧
    (stepB (fun _ => none) stC4 (0, "acme")).calls = stC4.calls ∧
    (stepB (fun _ => none) stC4 (0, "acme")).evals = stC4.evals := by
  have h := (reuse_window stC4 0 "acme" (fun _ => none)).1 evC4 (by decide)
  exact ⟨h.2.2.2.1, h.2.2.2.2.2.1, h.2.2.2.2.1⟩

/-- Witness for C3: the spec's concrete example
`x_factors = {a: 25, b: -3, c: 5, d: 5, e: 5}` is recomputed to
`20 + 0 + 5 + 5 + 5 = 35`, not the self-reported total 37. -/
theorem clamped_factor_scores_witness :
    ∃ ev : EvalRec,
      (stepB (fun _ => some rawC3) stC3 (0, "Acme")).evals = stC3.evals ++ [ev] ∧
      ev.x_score = some 35 ∧ ev.y_score = some 35 ∧ ev.x_score ≠ rawC3.x_score := by
  obtain ⟨ev, h1, h2, h3, -, -⟩ :=
    clamped_factor_scores stC3 0 "Acme" rawC3 (by decide) (by decide) (by decide)
  refine ⟨ev, h1, ?_, ?_, ?_⟩
  · rw [h2]; decide
  · rw [h3]; decide
  · rw [h2]; decide

/-- A `_analyze_batch` step keeps `total_companies` and `status` and either
keeps `completed_companies` or sets it to index + 1. -/
theorem stepB_cohort_effect (oracle : String → Option RawAnalysis) (st : EngineSt)
    (p : Nat × String) :
    (stepB oracle st p).cohort.total = st.cohort.total ∧
    ((stepB oracle st p).cohort.completed = st.cohort.completed ∨
      (stepB oracle st p).cohort.completed = (p.1 : Int) + 1) := by
  unfold stepB
  cases hf : findRecent st.evals p.2 (st.now - REUSE_THRESHOLD_HOURS)
  · cases ho : oracle p.2
    · exact ⟨rfl, Or.inl rfl⟩
    · exact ⟨rfl, Or.inr rfl⟩
  · exact ⟨rfl, Or.inr rfl⟩

/-- Every state written by a `_analyze_batch` task over entities enumerated
from `k` keeps `completed_companies ≤ total_companies`, provided it held at
entry and `k` plus the number of remaining entities is bounded by
`total_companies`. -/
theorem batchTraceB_inv (oracle : String → Option RawAnalysis) :
    ∀ (l : List String) (k : Nat) (st : EngineSt),
      st.cohort.completed ≤ st.cohort.total →
      (k : Int) + (l.length : Int) ≤ st.cohort.total →
      ∀ s ∈ batchTrace (stepB oracle) st (l.enumFrom k),
        s.cohort.completed ≤ s.cohort.total := by
  intro l
  induction l with
  | nil =>
    intro k st h1 _ s hs
    simp only [List.enumFrom, batchTrace, List.mem_singleton] at hs
    subst hs
    exact h1
  | cons a rest ih =>
    intro k st h1 h2 s hs
    rw [List.enumFrom, batchTrace] at hs
    obtain ⟨ht, hc⟩ := stepB_cohort_effect oracle st (k, a)
    simp only [List.length_cons] at h2
    push_cast at h2
    have h1' : (stepB oracle st (k, a)).cohort.completed ≤
        (stepB oracle st (k, a)).cohort.total := by
      rw [ht]
      rcases hc with hc | hc <;> rw [hc] <;> omega
    rcases List.mem_cons.mp hs with rfl | hs'
    · exact h1'
    · refine ih (k + 1) (stepB oracle st (k, a)) h1' ?_ s hs'
      rw [ht]
      push_cast
      omega

/-- A `_analyze_batch_append` step keeps `total_companies` and increases
`completed_companies` by at most 1. -/
theorem stepA_cohort_effect (oracle : String → Option RawAnalysis) (st : EngineSt)
    (p : Nat × String) :
    (stepA oracle st p).cohort.total = st.cohort.total ∧
    st.cohort.completed ≤ (stepA oracle st p).cohort.completed ∧
    (stepA oracle st p).cohort.completed ≤ st.cohort.completed + 1 := by
  unfold stepA
  cases hf : findRecent st.evals p.2 (st.now - REUSE_THRESHOLD_HOURS)
  · cases ho : oracle p.2
    · exact ⟨rfl, le_rfl,
        by show st.cohort.completed ≤ st.cohort.completed + 1; omega⟩
    · exact ⟨rfl,
        by show st.cohort.completed ≤ st.cohort.completed + 1; omega, le_rfl⟩
  · exact ⟨rfl,
      by show st.cohort.completed ≤ st.cohort.completed + 1; omega, le_rfl⟩

/-- Every state written by a `_analyze_batch_append` task keeps
`completed_companies ≤ total_companies`, provided the entry completed count
plus the number of remaining entities is bounded by `total_companies`. -/
theorem batchTraceA_inv (oracle : String → Option RawAnalysis) :
    ∀ (ps : List (Nat × String)) (st : EngineSt),
      st.cohort.completed + (ps.length : Int) ≤ st.cohort.total →
      ∀ s ∈ batchTrace (stepA oracle) st ps,
        s.cohort.completed ≤ s.cohort.total := by
  intro ps
  induction ps with
  | nil =>
    intro st h1 s hs
    simp only [batchTrace, List.mem_singleton] at hs
    subst hs
    show st.cohort.completed ≤ st.cohort.total
    simp only [List.length_nil] at h1
    omega
  | cons p rest ih =>
    intro st h1 s hs
    rw [batchTrace] at hs
    obtain ⟨ht, hle1, hle2⟩ := stepA_cohort_effect oracle st p
    simp only [List.length_cons] at h1
    push_cast at h1
    have h1' : (stepA oracle st p).cohort.completed + (rest.length : Int) ≤
        (stepA oracle st p).cohort.total := by
      rw [ht]
      omega
    rcases List.mem_cons.mp hs with rfl | hs'
    · rw [ht]
      omega
    · exact ih (stepA oracle st p) h1' s hs'

/-- The add path of `edit_cohort` grows `total_companies` by the number of
surviving new names and leaves `completed_companies` unchanged. -/
theorem editAdd_effect (st : EngineSt) (adds : List String) (st' : EngineSt)
    (cnew : List String) (sp : Nat) (h : editAdd st adds = some (st', cnew, sp)) :
    st'.cohort.total = st.cohort.total + (cnew.length : Int) ∧
    st'.cohort.completed = st.cohort.completed := by
  unfold editAdd at h
  by_cases hs : st.cohort.status = "complete" ∨ st.cohort.status = "error"
  · rw [if_pos hs] at h
    by_cases hc : cleanNamesFrom (memberNamesLower st) adds = []
    · rw [if_pos hc] at h
      simp only [Option.some.injEq, Prod.mk.injEq] at h
      obtain ⟨rfl, rfl, rfl⟩ := h
      simp
    · rw [if_neg hc] at h
      simp only [Option.some.injEq, Prod.mk.injEq] at h
      obtain ⟨rfl, rfl, rfl⟩ := h
      exact ⟨rfl, rfl⟩
  · rw [if_neg hs] at h
    exact absurd h (by simp)

/-- C6 counterexample: `stC6` is a reachable complete cohort (created from
an empty list, batch run to completion) with `total = completed = 0`; one
remove edit with a single id produces a state where
`completed_companies ≤ total_companies` fails. -/
theorem cohort_invariant_counterexample :
    stC6.cohort.status = "complete" ∧
    stC6.cohort.completed ≤ stC6.cohort.total ∧
    editRemove stC6 [1] = some stC6' ∧
    ¬(stC6'.cohort.completed ≤ stC6'.cohort.total) := by decide

/-- C6 amended: `completed_companies ≤ total_companies` holds after
`create_cohort`, is preserved by every progress update of a background batch
task (both the initial batch and the append batch, including the final
completion update), and is preserved by the add path of `edit_cohort`; the
remove path preserves it only when the removed-id count does not exceed
`total_companies` (as when the ids name actual members) — without that bound
the unfloored `total_companies` decrement breaks the invariant, as the
counterexample shows. -/
theorem cohort_invariant_amended :
    (∀ names, (createCohort names).1.completed ≤ (createCohort names).1.total) ∧
    (∀ names (oracle : String → Option RawAnalysis) (evals0 : List EvalRec)
        (nid : Nat) (now : Int) s,
      s ∈ batchTrace (stepB oracle)
            { cohort := (createCohort names).1, evals := evals0, members := [],
              nextId := nid, now := now, calls := [] }
            (((createCohort names).2).enumFrom 0) →
      s.cohort.completed ≤ s.cohort.total) ∧
    (∀ st ids st', st.cohort.completed ≤ st.cohort.total →
      ((ids.length : Int) ≤ st.cohort.total) →
      editRemove st ids = some st' →
      st'.cohort.completed ≤ st'.cohort.total) ∧
    (∀ st adds st' cnew sp (oracle : String → Option RawAnalysis),
      st.cohort.completed ≤ st.cohort.total →
      editAdd st adds = some (st', cnew, sp) →
      st'.cohort.completed ≤ st'.cohort.total ∧
      (∀ s ∈ batchTrace (stepA oracle) st' (cnew.enumFrom sp),
        s.cohort.completed ≤ s.cohort.total)) := by
  refine ⟨?_, ?_, ?_, ?_⟩
  · intro names
    show (0 : Int) ≤ ((cleanNames names).length : Int)
    exact Int.natCast_nonneg _
  · intro names oracle evals0 nid now s hs
    refine batchTraceB_inv oracle (createCohort names).2 0 _ ?_ ?_ s hs
    · show (0 : Int) ≤ ((cleanNames names).length : Int)
      exact Int.natCast_nonneg _
    · show (0 : Int) + ((cleanNames names).length : Int) ≤ ((cleanNames names).length : Int)
      omega
  · intro st ids st' h1 h2 h3
    rcases eq_or_ne ids [] with rfl | hne
    · unfold editRemove at h3
      by_cases hs : st.cohort.status = "complete" ∨ st.cohort.status = "error"
      · rw [if_pos hs, if_pos rfl] at h3
        obtain rfl := Option.some.inj h3
        exact h1
      · rw [if_neg hs] at h3
        exact absurd h3 (by simp)
    · unfold editRemove at h3
      by_cases hs : st.cohort.status = "complete" ∨ st.cohort.status = "error"
      · rw [if_pos hs, if_neg hne] at h3
        obtain rfl := Option.some.inj h3
        show max 0 (st.cohort.completed - (ids.length : Int)) ≤
          st.cohort.total - (ids.length : Int)
        omega
      · rw [if_neg hs] at h3
        exact absurd h3 (by simp)
  · intro st adds st' cnew sp oracle h1 h2
    obtain ⟨ht, hc⟩ := editAdd_effect st adds st' cnew sp h2
    constructor
    · rw [ht, hc]
      have := Int.natCast_nonneg cnew.length
      omega
    · intro s hs
      refine batchTraceA_inv oracle (cnew.enumFrom sp) st' ?_ s hs
      rw [List.enumFrom_length, ht, hc]
      omega

/-- Witness for C6 (amended): removing one actual member from a complete
two-member cohort preserves the invariant. -/
theorem cohort_invariant_amended_witness :
    stC6w'.cohort.completed ≤ stC6w'.cohort.total :=
  cohort_invariant_amended.2.2.1 stC6w [2] stC6w' (by decide) (by decide) (by decide)

end Saas
